import Mathlib

/-!
Verification of the filename-normalization and mission/video/transcript
reconciliation logic of the LocalStack-Lambda repository.

The definitions below are a shallow embedding of
`src/lambdas/sendJSONToOpenSearch/handler.py` (the normalizer
`normalize_filename`, the S3 listing normalization
`get_processed_s3_filenames`, and the pure reconciliation core of
`handler`), of the `.json` counting filter in
`src/lambdas/getSharepointVideos/handler.py` (`count_processed_videos`),
and of the upload key construction in
`src/tests/lamd/sendVideoToS3/handler.py` (`process_sharepoint_file`).

Strings are modelled as `List Char`.  All I/O (Microsoft Graph calls, S3
calls) is modelled by passing the fetched listings, or `Option.none` for a
failed fetch, as explicit inputs.
-/

set_option maxHeartbeats 1000000

namespace LocalStackLambda

/-- Characters the slug-collapse step keeps: the Python character class
`[a-z0-9-]` in `re.sub(r"[^a-z0-9-]+", "_", name)`. -/
def isAllowed (c : Char) : Bool :=
  ('a' ≤ c && c ≤ 'z') || ('0' ≤ c && c ≤ '9') || c = '-'

/-- ASCII digit test: the regex class `\d` of `-\d{8}_\d{6}-.*$`.  In the
source this regex runs on the output of `unidecode(...).lower()`, which is
ASCII, so the ASCII digit class is the behaviour exercised. -/
def isDigit (c : Char) : Bool := '0' ≤ c && c ≤ '9'

/-- Python `str.lower` restricted to ASCII.  In the source, `.lower()` is
applied only to the output of `unidecode`, which is ASCII, so the ASCII
case table is the behaviour exercised. -/
def pyLower (c : Char) : Char :=
  match c with
  | 'A' => 'a' | 'B' => 'b' | 'C' => 'c' | 'D' => 'd' | 'E' => 'e' | 'F' => 'f'
  | 'G' => 'g' | 'H' => 'h' | 'I' => 'i' | 'J' => 'j' | 'K' => 'k' | 'L' => 'l'
  | 'M' => 'm' | 'N' => 'n' | 'O' => 'o' | 'P' => 'p' | 'Q' => 'q' | 'R' => 'r'
  | 'S' => 's' | 'T' => 't' | 'U' => 'u' | 'V' => 'v' | 'W' => 'w' | 'X' => 'x'
  | 'Y' => 'y' | 'Z' => 'z'
  | _ => c

/-- Model of the `unidecode` transliteration library used by the handlers:
ASCII characters pass through unchanged, Latin-1 accented letters map to
their base ASCII letter, and any other codepoint transliterates to the
empty string (`unidecode` substitutes nothing for unknown characters, and
the spec requires exactly that fallback).  The table covers the accented
letters exercised by this repository; it is total and its output is always
ASCII. -/
def unidecodeChar (c : Char) : List Char :=
  if c.toNat < 128 then [c] else
  match c with
  | 'á' | 'à' | 'â' | 'ä' | 'ã' | 'å' => ['a']
  | 'Á' | 'À' | 'Â' | 'Ä' | 'Ã' | 'Å' => ['A']
  | 'é' | 'è' | 'ê' | 'ë' => ['e']
  | 'É' | 'È' | 'Ê' | 'Ë' => ['E']
  | 'í' | 'ì' | 'î' | 'ï' => ['i']
  | 'Í' | 'Ì' | 'Î' | 'Ï' => ['I']
  | 'ó' | 'ò' | 'ô' | 'ö' | 'õ' => ['o']
  | 'Ó' | 'Ò' | 'Ô' | 'Ö' | 'Õ' => ['O']
  | 'ú' | 'ù' | 'û' | 'ü' => ['u']
  | 'Ú' | 'Ù' | 'Û' | 'Ü' => ['U']
  | 'ñ' => ['n'] | 'Ñ' => ['N']
  | 'ç' => ['c'] | 'Ç' => ['C']
  | _ => []

/-- `unidecode` on a whole string: concatenation of the per-character
transliterations. -/
def unidecodeList (l : List Char) : List Char :=
  (l.map unidecodeChar).flatten

/-- The lowered transliteration of a single character: what the character
contributes to `unidecode(name).lower()`. -/
def charKey (c : Char) : List Char :=
  (unidecodeChar c).map pyLower

/-- `os.path.basename` for POSIX paths: the part after the last `/`. -/
def basename : List Char → List Char
  | [] => []
  | c :: cs => if '/' ∈ cs then basename cs else if c = '/' then cs else c :: cs

/-- Index of the last occurrence of a character, as used by the `rfind`
calls inside CPython's `os.path.splitext`. -/
def rfindIdx (c : Char) : List Char → Option Nat
  | [] => none
  | x :: xs =>
      match rfindIdx c xs with
      | some i => some (i + 1)
      | none => if x = c then some 0 else none

/-- `os.path.splitext` (CPython `genericpath._splitext` with `sep = '/'`,
no `altsep`, `extsep = '.'`): split at the last dot when that dot lies
after the last path separator and at least one non-dot character precedes
it in the basename (so leading dots never start an extension); the
extension includes the dot. -/
def splitext (p : List Char) : List Char × List Char :=
  match rfindIdx '.' p with
  | none => (p, [])
  | some d =>
      let start : Nat :=
        match rfindIdx '/' p with
        | none => 0
        | some s => s + 1
      if start ≤ d then
        if (List.range' start (d - start)).any
            (fun j => !(p.get? j == some '.')) then
          (p.take d, p.drop d)
        else (p, [])
      else (p, [])

/-- Does the list start with the literal regex head `-\d{8}_\d{6}-` of
`re.sub(r"-\d{8}_\d{6}-.*$", "", name)`? -/
def tsHead (l : List Char) : Bool :=
  match l with
  | c :: r =>
      (c == '-') &&
      ((r.take 8).length == 8) && (r.take 8).all isDigit &&
      ((r.drop 8).head? == some '_') &&
      (((r.drop 9).take 6).length == 6) && ((r.drop 9).take 6).all isDigit &&
      ((r.drop 15).head? == some '-')
  | [] => false

/-- Can the regex tail `.*$` cover the remaining characters `t` (after
the timestamp head)?  `.` does not cross a newline and `$` matches at the
end of the string or just before a final newline, so `t` matches exactly
when it has no newline, or a single newline as its last character. -/
def tailOk (t : List Char) : Bool :=
  (t.count '\n' == 0) || ((t.count '\n' == 1) && (t.getLast? == some '\n'))

/-- What `re.sub` leaves behind of the tail when the pattern matches
there: nothing, except a final newline that `$` matched in front of. -/
def residue (t : List Char) : List Char :=
  if t.count '\n' == 0 then [] else ['\n']

/-- Does the whole pattern `-\d{8}_\d{6}-.*$` match starting at the head
of `l`? -/
def matchesHere (l : List Char) : Bool :=
  tsHead l && tailOk (l.drop 17)

/-- The substitution `re.sub(r"-\d{8}_\d{6}-.*$", "", name)`: scan left to
right for the first position where the pattern matches and delete the
match (which runs to the end of the string, bar a final newline). -/
def subTimestamp : List Char → List Char
  | [] => []
  | c :: cs =>
      if matchesHere (c :: cs) then residue ((c :: cs).drop 17)
      else c :: subTimestamp cs

/-- Worker for `re.sub(r"[^a-z0-9-]+", "_", name)`: replace every maximal
run of disallowed characters by a single `'_'`.  The flag records whether
the previous character was part of a run already replaced. -/
def collapseAux : Bool → List Char → List Char
  | _, [] => []
  | inRun, c :: cs =>
      if isAllowed c then c :: collapseAux false cs
      else if inRun then collapseAux true cs
      else '_' :: collapseAux true cs

/-- The substitution `re.sub(r"[^a-z0-9-]+", "_", name)`. -/
def collapseRuns (l : List Char) : List Char :=
  collapseAux false l

/-- Python `str.strip("_")`: remove leading and trailing underscores. -/
def stripUnderscores (l : List Char) : List Char :=
  (((l.dropWhile (fun c => c = '_')).reverse.dropWhile
      (fun c => c = '_'))).reverse

/-- `normalize_filename` from `src/lambdas/sendJSONToOpenSearch/handler.py`
(the identical function also appears in
`src/tests/lamd/sendVideoToS3/handler.py`):

    name, ext = os.path.splitext(os.path.basename(filename))
    name = unidecode(name).lower()
    name = re.sub(r"-\d{8}_\d{6}-.*$", "", name)
    name = re.sub(r"[^a-z0-9-]+", "_", name).strip("_")
    return f"{name}{ext}" if extension else name
-/
def normalize_filename (filename : List Char) (extension : Bool := false) :
    List Char :=
  let pair := splitext (basename filename)
  let name := (unidecodeList pair.1).map pyLower
  let name := subTimestamp name
  let name := stripUnderscores (collapseRuns name)
  if extension then name ++ pair.2 else name

example : normalize_filename "Café-Intro.mp4".data = "cafe-intro".data := by decide
example : normalize_filename "cafe_intro.mp4".data = "cafe_intro".data := by decide
example :
    normalize_filename "meeting-20240115_093000-raw.mp4".data = "meeting".data := by
  decide
example : normalize_filename "meeting.mp4".data = "meeting".data := by decide
example : normalize_filename "A B.MP4".data true = "a_b.MP4".data := by decide
example : normalize_filename "___".data = "".data := by decide
example : normalize_filename "json/.gitkeep".data = "gitkeep".data := by decide
example : normalize_filename "___.mp4".data = "".data := by decide
example :
    normalize_filename "a-12345678 123456-b.mp4".data =
      "a-12345678_123456-b".data := by decide

/-- A SharePoint listing item as consumed by the reconciler: the `id`,
`name` and `webUrl` fields read with `dict.get` (absent field gives
`none`; the source reads `name` with default `""` where it normalizes). -/
structure FileItem where
  fid : Option String
  name : Option (List Char)
  webUrl : Option String
deriving DecidableEq, Repr

/-- The normalized lookup key of a listing item:
`normalize_filename(f.get("name", ""))`. -/
def itemKey (f : FileItem) : List Char :=
  normalize_filename (f.name.getD [])

/-- Lookup in the dict comprehension
`{normalize_filename(f.get("name", "")): f for f in transcript_files}`:
inserting left to right, a later item with the same key overwrites an
earlier one. -/
def lookupTranscript (ts : List FileItem) (key : List Char) :
    Option FileItem :=
  ts.foldl (fun acc f => if itemKey f = key then some f else acc) none

/-- One mission folder of the reconciliation loop, together with the
outcomes of the per-mission fetches the handler performs for it:
`videoFolder = none` models a falsy `video_folder_id` (no `video`
subfolder found), `some none` models `list_sharepoint_files` returning
`None` for the video folder (listing failed), and `some (some l)` a
successful listing.  `transcriptFolder` is encoded the same way for the
`transcript` subfolder. -/
structure MissionInput where
  mid : Option String
  mname : List Char
  videoFolder : Option (Option (List FileItem))
  transcriptFolder : Option (Option (List FileItem))
deriving DecidableEq, Repr

/-- The transcript file list the handler ends up iterating for a mission:
`[]` when the `transcript` subfolder is missing or its listing failed
(both fall back to `transcript_files = []`). -/
def transcriptFiles (m : MissionInput) : List FileItem :=
  match m.transcriptFolder with
  | some (some ts) => ts
  | _ => []

/-- One element of `mission_videos` as built by the handler loop. -/
structure VideoRecord where
  videoId : Option String
  transcriptId : Option String
  title : Option (List Char)
  processed : Bool
  webUrl : Option String
  missionId : Option String
  missionName : List Char
deriving DecidableEq, Repr

/-- One element of `missions_list` as built by the handler loop. -/
structure MissionSummary where
  missionId : Option String
  missionName : List Char
  videos : List VideoRecord
  videoCount : Nat
  processedCount : Nat
deriving DecidableEq, Repr

/-- The `mission_videos` entry the handler builds for one video file. -/
def mkVideoRecord (processedSet : List (List Char)) (m : MissionInput)
    (ts : List FileItem) (v : FileItem) : VideoRecord :=
  let key := itemKey v
  { videoId := v.fid
    transcriptId := (lookupTranscript ts key).bind (fun t => t.fid)
    title := v.name
    processed := decide (key ∈ processedSet)
    webUrl := v.webUrl
    missionId := m.mid
    missionName := m.mname }

/-- The body of the per-mission loop in `handler`
(`src/lambdas/sendJSONToOpenSearch/handler.py`, lines 151-225): skip the
mission (`continue`) when there is no `video` subfolder or its listing
failed, fall back to an empty transcript list when the `transcript`
subfolder is missing or its listing failed, build one record per video,
and append a summary only when `mission_videos` is nonempty.  `none`
means the mission contributes nothing to `missions_list`. -/
def processMission (processedSet : List (List Char)) (m : MissionInput) :
    Option MissionSummary :=
  match m.videoFolder with
  | none => none
  | some none => none
  | some (some videoFiles) =>
      let ts := transcriptFiles m
      let recs := videoFiles.map (mkVideoRecord processedSet m ts)
      if recs.isEmpty then none
      else some
        { missionId := m.mid
          missionName := m.mname
          videos := recs
          videoCount := recs.length
          processedCount := recs.countP (fun v => v.processed) }

/-- `get_processed_s3_filenames`: normalize every key of the S3 listing
under `PREFIX_JSON_FOLDER` (the set comprehension applies
`normalize_filename(item["Key"])` to every listed key; there is no suffix
filter).  A `ClientError` — modelled by `none` — is caught and yields the
empty set.  The Python set is modelled as the list of normalized keys;
only membership in it is ever used. -/
def get_processed_s3_filenames (listing : Option (List (List Char))) :
    List (List Char) :=
  match listing with
  | none => []
  | some keys => keys.map (fun k => normalize_filename k)

/-- The fetched external state the handler runs on: the OAuth token
(`none` when `get_access_token` failed), the mission folder list (`none`
when `get_mission_folders` returned `None`), and the raw S3 listing
(`none` when `list_objects_v2` raised `ClientError`). -/
structure HandlerInput where
  accessToken : Option String
  missionFolders : Option (List MissionInput)
  processedListing : Option (List (List Char))
deriving DecidableEq, Repr

/-- Outcome of `handler`: a 500 error response, or the 200 response whose
body serializes `missions_list`. -/
inductive HandlerResult where
  | error (msg : String)
  | ok (missions : List MissionSummary)
deriving DecidableEq, Repr

/-- The `handler` of `src/lambdas/sendJSONToOpenSearch/handler.py` over
the fetched state: fail with 500 when the token or the mission folder
list could not be obtained, otherwise build the processed set (empty when
the S3 listing failed) and run the per-mission loop, collecting the
summaries in mission listing order. -/
def handler (inp : HandlerInput) : HandlerResult :=
  match inp.accessToken with
  | none => .error "Could not obtain access token"
  | some _ =>
      match inp.missionFolders with
      | none => .error "Failed to retrieve mission folders from SharePoint"
      | some missions =>
          let processedSet := get_processed_s3_filenames inp.processedListing
          .ok (missions.filterMap (processMission processedSet))

/-- Whether an S3 key passes the filter of `count_processed_videos` in
`src/lambdas/getSharepointVideos/handler.py`:
`obj["Key"].endswith(".json") and not obj["Key"].endswith(".gitkeep")`. -/
def jsonKeep (k : List Char) : Bool :=
  ".json".data.isSuffixOf k && !(".gitkeep".data.isSuffixOf k)

/-- `count_processed_videos`: count the `.json` (non-`.gitkeep`) keys of
the S3 listing under the mission's JSON prefix.  The listing is the
already-prefix-filtered server response; `none` models the exception
path, which returns 0. -/
def count_processed_videos (listing : Option (List (List Char))) : Nat :=
  match listing with
  | none => 0
  | some keys => (keys.filter jsonKeep).length

/-- The S3 key `process_sharepoint_file` in
`src/tests/lamd/sendVideoToS3/handler.py` writes for an uploaded file:
`f"{s3_prefix}/{normalize_filename(original_filename, extension=True)}"`. -/
def uploadKey (s3Prefix : List Char) (originalFilename : List Char) :
    List Char :=
  s3Prefix ++ '/' :: normalize_filename originalFilename true

/-! ## Helper lemmas about the reconciler -/

theorem lookup_eq_getLast (ts : List FileItem) (key : List Char) :
    lookupTranscript ts key =
      (ts.filter (fun f => itemKey f = key)).getLast? := by
  induction ts using List.reverseRecOn with
  | nil => rfl
  | append_singleton l a ih =>
      unfold lookupTranscript at ih ⊢
      rw [List.foldl_append, List.filter_append]
      simp only [List.foldl_cons, List.foldl_nil]
      by_cases h : itemKey a = key
      · simp [h, List.getLast?_concat]
      · simp [h, ih]

theorem mkVideoRecord_processed (ps : List (List Char)) (m : MissionInput)
    (ts : List FileItem) (v : FileItem) :
    ((mkVideoRecord ps m ts v).processed = true) ↔ itemKey v ∈ ps := by
  simp [mkVideoRecord]

theorem mkVideoRecord_transcriptId (ps : List (List Char)) (m : MissionInput)
    (ts : List FileItem) (v : FileItem) :
    (mkVideoRecord ps m ts v).transcriptId =
      ((ts.filter (fun f => itemKey f = itemKey v)).getLast?).bind
        (fun t => t.fid) := by
  simp [mkVideoRecord, lookup_eq_getLast]

theorem processMission_eq_some {ps : List (List Char)} {m : MissionInput}
    {s : MissionSummary} (h : processMission ps m = some s) :
    ∃ vfs : List FileItem, m.videoFolder = some (some vfs) ∧ vfs ≠ [] ∧
      s.videos = vfs.map (mkVideoRecord ps m (transcriptFiles m)) ∧
      s.missionId = m.mid ∧ s.missionName = m.mname := by
  unfold processMission at h
  match hv : m.videoFolder with
  | none => rw [hv] at h; exact absurd h (by simp)
  | some none => rw [hv] at h; exact absurd h (by simp)
  | some (some vfs) =>
      rw [hv] at h
      simp only at h
      by_cases he : (vfs.map (mkVideoRecord ps m (transcriptFiles m))).isEmpty
      · rw [if_pos he] at h; exact absurd h (by simp)
      · rw [if_neg he] at h
        obtain rfl := (Option.some.inj h).symm
        refine ⟨vfs, rfl, ?_, rfl, rfl, rfl⟩
        intro hnil
        rw [hnil] at he
        exact he rfl

/-! ## C2: emitted video records -/

/-- C2: for every emitted mission and every video in its listing, the
emitted record's `processed` flag is true exactly when the video's
normalized key is in the processed set, and `transcriptId` is the id of
the last transcript in listing order whose normalized key equals the
video's (or `none` when no transcript matches). -/
theorem C2_video_record_fields (ps : List (List Char)) (m : MissionInput)
    (vfs : List FileItem) (s : MissionSummary)
    (hv : m.videoFolder = some (some vfs))
    (h : processMission ps m = some s) :
    s.videos.length = vfs.length ∧
    ∀ i (h1 : i < s.videos.length) (h2 : i < vfs.length),
      ((s.videos.get ⟨i, h1⟩).processed = true ↔
          itemKey (vfs.get ⟨i, h2⟩) ∈ ps) ∧
      (s.videos.get ⟨i, h1⟩).transcriptId =
        (((transcriptFiles m).filter
            (fun f => itemKey f = itemKey (vfs.get ⟨i, h2⟩))).getLast?).bind
          (fun t => t.fid) := by
  obtain ⟨vfs', hv', _, hvid, _, _⟩ := processMission_eq_some h
  rw [hv'] at hv
  have hee : vfs = vfs' := (Option.some.inj (Option.some.inj hv)).symm
  subst hee
  constructor
  · rw [hvid, List.length_map]
  · intro i h1 h2
    have hget : s.videos.get ⟨i, h1⟩ =
        mkVideoRecord ps m (transcriptFiles m) (vfs.get ⟨i, h2⟩) := by
      have e1 : s.videos[i]? =
          some (mkVideoRecord ps m (transcriptFiles m) (vfs.get ⟨i, h2⟩)) := by
        rw [hvid]
        simp [List.getElem?_eq_getElem h2, List.get_eq_getElem]
      rw [List.get_eq_getElem]
      exact Option.some.inj ((List.getElem?_eq_getElem h1).symm.trans e1)
    rw [hget]
    exact ⟨mkVideoRecord_processed ps m (transcriptFiles m) _,
      mkVideoRecord_transcriptId ps m (transcriptFiles m) _⟩

/-- C2 witness: a concrete mission with video
`"Intro-20240101_000000-x.mp4"` and transcript `"Intro.vtt"`; matching at
index 0 gives the transcript's id and an unprocessed flag. -/
theorem C2_witness :
    (([{ fid := some "v1", name := some "Intro-20240101_000000-x.mp4".data,
         webUrl := none }].map
        (mkVideoRecord ["other".data]
          { mid := some "m1", mname := "alpha".data,
            videoFolder := some (some
              [{ fid := some "v1",
                 name := some "Intro-20240101_000000-x.mp4".data,
                 webUrl := none }]),
            transcriptFolder := some (some
              [{ fid := some "t1", name := some "Intro.vtt".data,
                 webUrl := none }]) }
          [{ fid := some "t1", name := some "Intro.vtt".data,
             webUrl := none }])).get ⟨0, by decide⟩).transcriptId =
      some "t1" := by
  have h := C2_video_record_fields ["other".data]
    { mid := some "m1", mname := "alpha".data,
      videoFolder := some (some
        [{ fid := some "v1", name := some "Intro-20240101_000000-x.mp4".data,
           webUrl := none }]),
      transcriptFolder := some (some
        [{ fid := some "t1", name := some "Intro.vtt".data,
           webUrl := none }]) }
    [{ fid := some "v1", name := some "Intro-20240101_000000-x.mp4".data,
       webUrl := none }]
    { missionId := some "m1", missionName := "alpha".data,
      videos := [{ fid := some "v1",
                   name := some "Intro-20240101_000000-x.mp4".data,
                   webUrl := none }].map
        (mkVideoRecord ["other".data]
          { mid := some "m1", mname := "alpha".data,
            videoFolder := some (some
              [{ fid := some "v1",
                 name := some "Intro-20240101_000000-x.mp4".data,
                 webUrl := none }]),
            transcriptFolder := some (some
              [{ fid := some "t1", name := some "Intro.vtt".data,
                 webUrl := none }]) }
          [{ fid := some "t1", name := some "Intro.vtt".data,
             webUrl := none }]),
      videoCount := 1, processedCount := 0 }
    rfl (by decide)
  have h2 := (h.2 0 (by decide) (by decide)).2
  rw [h2]
  decide

/-! ## C3: failure to list S3 does not abort -/

/-- C3 counterexample: with the S3 listing failed (`none`), the handler
still emits a `MissionSummary` for a mission with one video, instead of
aborting with a top-level error; the video is merely reported
unprocessed. -/
theorem C3_counterexample :
    handler
      { accessToken := some "tok",
        missionFolders := some
          [{ mid := some "m1", mname := "alpha".data,
             videoFolder := some (some
               [{ fid := some "v1", name := some "intro.mp4".data,
                  webUrl := none }]),
             transcriptFolder := none }],
        processedListing := none } =
      .ok [{ missionId := some "m1", missionName := "alpha".data,
             videos := [{ videoId := some "v1", transcriptId := none,
                          title := some "intro.mp4".data, processed := false,
                          webUrl := none, missionId := some "m1",
                          missionName := "alpha".data }],
             videoCount := 1, processedCount := 0 }] := by
  decide

/-- C3 amended: when the S3 listing of processed keys fails,
`get_processed_s3_filenames` catches the error and returns the empty set;
the handler continues the reconciliation with that empty set, so every
mission is still processed and every emitted video is marked
`processed = false`. -/
theorem C3_empty_set_fallback (t : String) (ms : List MissionInput) :
    handler { accessToken := some t, missionFolders := some ms,
              processedListing := none } =
      .ok (ms.filterMap (processMission [])) ∧
    ∀ s ∈ ms.filterMap (processMission ([] : List (List Char))),
      ∀ v ∈ s.videos, v.processed = false := by
  constructor
  · rfl
  · intro s hs v hv
    obtain ⟨m, _, hm⟩ := List.mem_filterMap.mp hs
    obtain ⟨vfs, _, _, hvid, _, _⟩ := processMission_eq_some hm
    rw [hvid] at hv
    obtain ⟨w, _, hw⟩ := List.mem_map.mp hv
    rw [← hw]
    simp [mkVideoRecord]

/-- C3 witness: the amended statement at a concrete mission list. -/
theorem C3_empty_set_fallback_witness :
    handler { accessToken := some "tok",
              missionFolders := some
                [{ mid := some "m1", mname := "alpha".data,
                   videoFolder := some (some
                     [{ fid := some "v1", name := some "intro.mp4".data,
                        webUrl := none }]),
                   transcriptFolder := none }],
              processedListing := none } =
      .ok ([{ mid := some "m1", mname := "alpha".data,
              videoFolder := some (some
                [{ fid := some "v1", name := some "intro.mp4".data,
                   webUrl := none }]),
              transcriptFolder := none }].filterMap (processMission [])) ∧
    ({ videoId := some "v1", transcriptId := none,
       title := some "intro.mp4".data, processed := false, webUrl := none,
       missionId := some "m1",
       missionName := "alpha".data } : VideoRecord).processed = false := by
  refine ⟨(C3_empty_set_fallback "tok" _).1, ?_⟩
  refine (C3_empty_set_fallback "tok"
    [{ mid := some "m1", mname := "alpha".data,
       videoFolder := some (some
         [{ fid := some "v1", name := some "intro.mp4".data,
            webUrl := none }]),
       transcriptFolder := none }]).2
    { missionId := some "m1", missionName := "alpha".data,
      videos := [{ videoId := some "v1", transcriptId := none,
                   title := some "intro.mp4".data, processed := false,
                   webUrl := none, missionId := some "m1",
                   missionName := "alpha".data }],
      videoCount := 1, processedCount := 0 }
    (by decide) _ (by decide)

/-! ## C5: mission drop rule -/

/-- C5: a mission with no `video` subfolder or an empty video listing
contributes no `MissionSummary`, whatever its transcript side holds; a
mission with a nonempty video listing always contributes one, so absence
of a `transcript` subfolder alone never drops a mission. -/
theorem C5_mission_drop_rule :
    (∀ (ps : List (List Char)) (m : MissionInput),
        m.videoFolder = none → processMission ps m = none) ∧
    (∀ (ps : List (List Char)) (m : MissionInput),
        m.videoFolder = some (some []) → processMission ps m = none) ∧
    (∀ (ps : List (List Char)) (m : MissionInput) (vfs : List FileItem),
        m.videoFolder = some (some vfs) → vfs ≠ [] →
        (processMission ps m).isSome = true) := by
  refine ⟨?_, ?_, ?_⟩
  · intro ps m h; unfold processMission; rw [h]
  · intro ps m h; unfold processMission; rw [h]; rfl
  · intro ps m vfs h hne
    unfold processMission
    rw [h]
    simp only
    rw [if_neg]
    · rfl
    · simp [List.isEmpty_iff, hne]

/-- C5 witness: the three cases of the drop rule at concrete missions;
the third mission has a transcript folder absent and still contributes. -/
theorem C5_witness :
    processMission []
      { mid := some "m1", mname := "a".data, videoFolder := none,
        transcriptFolder := some (some
          [{ fid := some "t1", name := some "x.vtt".data,
             webUrl := none }]) } = none ∧
    processMission []
      { mid := some "m2", mname := "b".data, videoFolder := some (some []),
        transcriptFolder := some (some
          [{ fid := some "t1", name := some "x.vtt".data,
             webUrl := none }]) } = none ∧
    (processMission []
      { mid := some "m3", mname := "c".data,
        videoFolder := some (some
          [{ fid := some "v1", name := some "x.mp4".data,
             webUrl := none }]),
        transcriptFolder := none }).isSome = true :=
  ⟨C5_mission_drop_rule.1 [] _ rfl,
   C5_mission_drop_rule.2.1 [] _ rfl,
   C5_mission_drop_rule.2.2 [] _
     [{ fid := some "v1", name := some "x.mp4".data, webUrl := none }]
     rfl (by decide)⟩

/-! ## C4: per-mission fetch failures -/

/-- C4 counterexample: a mission whose transcript listing failed
(`transcriptFolder = some none`) still contributes a `MissionSummary` —
the handler only logs a warning and falls back to an empty transcript
list — contradicting the claim that such a mission is skipped. -/
theorem C4_counterexample :
    processMission []
      { mid := some "m1", mname := "alpha".data,
        videoFolder := some (some
          [{ fid := some "v1", name := some "intro.mp4".data,
             webUrl := none }]),
        transcriptFolder := some none } =
      some { missionId := some "m1", missionName := "alpha".data,
             videos := [{ videoId := some "v1", transcriptId := none,
                          title := some "intro.mp4".data, processed := false,
                          webUrl := none, missionId := some "m1",
                          missionName := "alpha".data }],
             videoCount := 1, processedCount := 0 } := by
  decide

/-- C4 amended: only a failed *video* listing skips a mission; the
handler then still reconciles every remaining mission.  A failed
transcript listing is treated exactly like an absent transcript folder
(empty transcript list), so the mission still contributes. -/
theorem C4_video_fetch_skip :
    (∀ (ps : List (List Char)) (m : MissionInput),
        m.videoFolder = some none → processMission ps m = none) ∧
    (∀ (t : String) (pl : Option (List (List Char)))
        (ms1 ms2 : List MissionInput) (m : MissionInput),
        m.videoFolder = some none →
        handler { accessToken := some t,
                  missionFolders := some (ms1 ++ m :: ms2),
                  processedListing := pl } =
          handler { accessToken := some t, missionFolders := some (ms1 ++ ms2),
                    processedListing := pl }) ∧
    (∀ (ps : List (List Char)) (m : MissionInput),
        processMission ps { m with transcriptFolder := some none } =
          processMission ps { m with transcriptFolder := none }) := by
  have hskip : ∀ (ps : List (List Char)) (m : MissionInput),
      m.videoFolder = some none → processMission ps m = none := by
    intro ps m h
    unfold processMission
    rw [h]
  refine ⟨hskip, ?_, ?_⟩
  · intro t pl ms1 ms2 m h
    unfold handler
    simp only [List.filterMap_append, List.filterMap_cons,
      hskip (get_processed_s3_filenames pl) m h]
  · intro ps m
    unfold processMission transcriptFiles
    rfl

/-- C4 witness: the amended statement at concrete inputs — the skipped
mission disappears from the output, the mission list around it survives,
and a failed transcript listing equals an absent transcript folder. -/
theorem C4_witness :
    processMission []
      { mid := some "bad", mname := "bad".data, videoFolder := some none,
        transcriptFolder := none } = none ∧
    handler { accessToken := some "tok",
              missionFolders := some
                [{ mid := some "bad", mname := "bad".data,
                   videoFolder := some none, transcriptFolder := none },
                 { mid := some "m2", mname := "beta".data,
                   videoFolder := some (some
                     [{ fid := some "v2", name := some "b.mp4".data,
                        webUrl := none }]),
                   transcriptFolder := none }],
              processedListing := some [] } =
      handler { accessToken := some "tok",
                missionFolders := some
                  [{ mid := some "m2", mname := "beta".data,
                     videoFolder := some (some
                       [{ fid := some "v2", name := some "b.mp4".data,
                          webUrl := none }]),
                     transcriptFolder := none }],
                processedListing := some [] } ∧
    processMission []
      { mid := some "m3", mname := "c".data,
        videoFolder := some (some
          [{ fid := some "v3", name := some "c.mp4".data, webUrl := none }]),
        transcriptFolder := some none } =
      processMission []
        { mid := some "m3", mname := "c".data,
          videoFolder := some (some
            [{ fid := some "v3", name := some "c.mp4".data,
               webUrl := none }]),
          transcriptFolder := none } :=
  ⟨C4_video_fetch_skip.1 [] _ rfl,
   C4_video_fetch_skip.2.1 "tok" (some []) []
     [{ mid := some "m2", mname := "beta".data,
        videoFolder := some (some
          [{ fid := some "v2", name := some "b.mp4".data, webUrl := none }]),
        transcriptFolder := none }]
     { mid := some "bad", mname := "bad".data, videoFolder := some none,
       transcriptFolder := none } rfl,
   C4_video_fetch_skip.2.2 []
     { mid := some "m3", mname := "c".data,
       videoFolder := some (some
         [{ fid := some "v3", name := some "c.mp4".data, webUrl := none }]),
       transcriptFolder := none }⟩

/-! ## C7: empty normalized keys -/

/-- C7 counterexample: a video normalizing to the empty key is matched
against a transcript that also normalizes to the empty key, and the empty
key found in the S3 listing marks it processed — the emitted record has
`transcriptId = some "t-1"` and `processed = true`, not `none`/`false` as
the claim requires. -/
theorem C7_counterexample :
    normalize_filename "___.mp4".data = [] ∧
    handler
      { accessToken := some "tok",
        missionFolders := some
          [{ mid := some "m1", mname := "alpha".data,
             videoFolder := some (some
               [{ fid := some "v1", name := some "___.mp4".data,
                  webUrl := none }]),
             transcriptFolder := some (some
               [{ fid := some "t-1", name := some "___.vtt".data,
                  webUrl := none }]) }],
        processedListing := some ["json/___".data] } =
      .ok [{ missionId := some "m1", missionName := "alpha".data,
             videos := [{ videoId := some "v1", transcriptId := some "t-1",
                          title := some "___.mp4".data, processed := true,
                          webUrl := none, missionId := some "m1",
                          missionName := "alpha".data }],
             videoCount := 1, processedCount := 1 }] := by
  exact ⟨by decide, by decide⟩

/-- C7 amended: an empty normalized key is matched exactly like any other
key — the record's `transcriptId` is the id of the last transcript whose
name also normalizes to the empty key (or `none` when there is none), and
`processed` is true exactly when the empty key is a member of the
processed set. -/
theorem C7_empty_key_matching (ps : List (List Char)) (m : MissionInput)
    (vfs : List FileItem) (s : MissionSummary) (i : Nat)
    (h1 : i < s.videos.length) (h2 : i < vfs.length)
    (hv : m.videoFolder = some (some vfs))
    (h : processMission ps m = some s)
    (hkey : itemKey (vfs.get ⟨i, h2⟩) = []) :
    ((s.videos.get ⟨i, h1⟩).processed = true ↔ ([] : List Char) ∈ ps) ∧
    (s.videos.get ⟨i, h1⟩).transcriptId =
      (((transcriptFiles m).filter
          (fun f => itemKey f = ([] : List Char))).getLast?).bind
        (fun t => t.fid) := by
  obtain ⟨vfs', hv', _, hvid, _, _⟩ := processMission_eq_some h
  rw [hv'] at hv
  have hee : vfs = vfs' := (Option.some.inj (Option.some.inj hv)).symm
  subst hee
  have hget : s.videos.get ⟨i, h1⟩ =
      mkVideoRecord ps m (transcriptFiles m) (vfs.get ⟨i, h2⟩) := by
    have e1 : s.videos[i]? =
        some (mkVideoRecord ps m (transcriptFiles m) (vfs.get ⟨i, h2⟩)) := by
      rw [hvid]
      simp [List.getElem?_eq_getElem h2, List.get_eq_getElem]
    rw [List.get_eq_getElem]
    exact Option.some.inj ((List.getElem?_eq_getElem h1).symm.trans e1)
  rw [hget]
  constructor
  · rw [mkVideoRecord_processed, hkey]
  · rw [mkVideoRecord_transcriptId, hkey]

/-- C7 witness: the amended statement at the concrete colliding inputs of
the counterexample. -/
theorem C7_empty_key_matching_witness :
    ((([{ fid := some "v1", name := some "___.mp4".data, webUrl := none }].map
        (mkVideoRecord [([] : List Char)]
          { mid := some "m1", mname := "alpha".data,
            videoFolder := some (some
              [{ fid := some "v1", name := some "___.mp4".data,
                 webUrl := none }]),
            transcriptFolder := some (some
              [{ fid := some "t-1", name := some "___.vtt".data,
                 webUrl := none }]) }
          [{ fid := some "t-1", name := some "___.vtt".data,
             webUrl := none }])).get ⟨0, by decide⟩).processed = true ↔
      ([] : List Char) ∈ [([] : List Char)]) ∧
    (([{ fid := some "v1", name := some "___.mp4".data, webUrl := none }].map
        (mkVideoRecord [([] : List Char)]
          { mid := some "m1", mname := "alpha".data,
            videoFolder := some (some
              [{ fid := some "v1", name := some "___.mp4".data,
                 webUrl := none }]),
            transcriptFolder := some (some
              [{ fid := some "t-1", name := some "___.vtt".data,
                 webUrl := none }]) }
          [{ fid := some "t-1", name := some "___.vtt".data,
             webUrl := none }])).get ⟨0, by decide⟩).transcriptId =
      (((transcriptFiles
          { mid := some "m1", mname := "alpha".data,
            videoFolder := some (some
              [{ fid := some "v1", name := some "___.mp4".data,
                 webUrl := none }]),
            transcriptFolder := some (some
              [{ fid := some "t-1", name := some "___.vtt".data,
                 webUrl := none }]) }).filter
          (fun f => itemKey f = ([] : List Char))).getLast?).bind
        (fun t => t.fid) :=
  C7_empty_key_matching [([] : List Char)]
    { mid := some "m1", mname := "alpha".data,
      videoFolder := some (some
        [{ fid := some "v1", name := some "___.mp4".data, webUrl := none }]),
      transcriptFolder := some (some
        [{ fid := some "t-1", name := some "___.vtt".data,
           webUrl := none }]) }
    [{ fid := some "v1", name := some "___.mp4".data, webUrl := none }]
    { missionId := some "m1", missionName := "alpha".data,
      videos := [{ fid := some "v1", name := some "___.mp4".data,
                   webUrl := none }].map
        (mkVideoRecord [([] : List Char)]
          { mid := some "m1", mname := "alpha".data,
            videoFolder := some (some
              [{ fid := some "v1", name := some "___.mp4".data,
                 webUrl := none }]),
            transcriptFolder := some (some
              [{ fid := some "t-1", name := some "___.vtt".data,
                 webUrl := none }]) }
          [{ fid := some "t-1", name := some "___.vtt".data,
             webUrl := none }]),
      videoCount := 1, processedCount := 1 }
    0 (by decide) (by decide) rfl (by decide) (by decide)

/-! ## C8: the processed set has no suffix filter -/

/-- C8 counterexample: the key `json/.gitkeep` fails the `.json` suffix
test, yet `get_processed_s3_filenames` still turns it into the processed
key `gitkeep` — the reconciler's processed set applies no suffix filter
at all. -/
theorem C8_counterexample :
    "gitkeep".data ∈ get_processed_s3_filenames (some ["json/.gitkeep".data]) ∧
    ".json".data.isSuffixOf "json/.gitkeep".data = false := by
  decide

/-- C8 amended: only `count_processed_videos` (in the
`getSharepointVideos` handler) filters to the `.json` suffix — every key
it counts ends with `.json` — while the reconciler's
`get_processed_s3_filenames` contributes the normalized form of *every*
listed key under the prefix, with no suffix filter. -/
theorem C8_suffix_filter :
    (∀ (keys : List (List Char)) (k : List Char),
        k ∈ keys.filter jsonKeep → ".json".data.isSuffixOf k = true) ∧
    (∀ (ks : List (List Char)) (k : List Char), k ∈ ks →
        normalize_filename k ∈ get_processed_s3_filenames (some ks)) := by
  constructor
  · intro keys k hk
    have h := List.of_mem_filter hk
    unfold jsonKeep at h
    exact (Bool.and_eq_true_iff.mp h).1
  · intro ks k hk
    exact List.mem_map.mpr ⟨k, hk, rfl⟩

/-- C8 witness: both halves of the amended statement at concrete
listings. -/
theorem C8_suffix_filter_witness :
    ".json".data.isSuffixOf "json/a.json".data = true ∧
    normalize_filename "json/b.mp4".data ∈
      get_processed_s3_filenames (some ["json/a.json".data,
        "json/b.mp4".data]) :=
  ⟨C8_suffix_filter.1 ["json/a.json".data, "json/b.mp4".data]
      "json/a.json".data (by decide),
   C8_suffix_filter.2 ["json/a.json".data, "json/b.mp4".data]
      "json/b.mp4".data (by decide)⟩

/-! ## C9: ordering -/

theorem map_filterMap_sublist {α β γ : Type} (g : α → Option β) (f : β → γ)
    (f' : α → γ) (H : ∀ a b, g a = some b → f b = f' a) :
    ∀ l : List α, ((l.filterMap g).map f).Sublist (l.map f') := by
  intro l
  induction l with
  | nil => simp
  | cons a l ih =>
      rw [List.filterMap_cons, List.map_cons]
      cases hg : g a with
      | none => exact ih.cons (f' a)
      | some b => rw [List.map_cons, H a b hg]; exact ih.cons₂ (f' a)

/-- C9: the emitted mission sequence preserves the input mission listing
order (it is an in-order subsequence of it), and within an emitted
mission the record sequence is exactly the video listing mapped in order;
no output order depends on any lookup structure. -/
theorem C9_ordering :
    (∀ (t : String) (pl : Option (List (List Char)))
        (ms : List MissionInput) (out : List MissionSummary),
        handler { accessToken := some t, missionFolders := some ms,
                  processedListing := pl } = .ok out →
        (out.map (fun s => (s.missionId, s.missionName))).Sublist
          (ms.map (fun m => (m.mid, m.mname)))) ∧
    (∀ (ps : List (List Char)) (m : MissionInput) (vfs : List FileItem)
        (s : MissionSummary),
        m.videoFolder = some (some vfs) → processMission ps m = some s →
        s.videos.map (fun v => v.title) = vfs.map (fun v => v.name) ∧
        s.videos.map (fun v => v.videoId) = vfs.map (fun v => v.fid)) := by
  constructor
  · intro t pl ms out h
    have hout : out =
        ms.filterMap (processMission (get_processed_s3_filenames pl)) := by
      unfold handler at h
      simp only at h
      exact (HandlerResult.ok.inj h).symm
    subst hout
    exact map_filterMap_sublist _ _ _
      (fun m s hm => by
        obtain ⟨_, _, _, _, h4, h5⟩ := processMission_eq_some hm
        rw [h4, h5]) ms
  · intro ps m vfs s hv h
    obtain ⟨vfs', hv', _, hvid, _, _⟩ := processMission_eq_some h
    rw [hv'] at hv
    have hee : vfs = vfs' := (Option.some.inj (Option.some.inj hv)).symm
    subst hee
    rw [hvid]
    constructor <;> simp [mkVideoRecord]

/-- C9 witness: ordering at a concrete two-mission, two-video input in
reverse alphabetical order. -/
theorem C9_ordering_witness :
    List.Sublist
      (List.map (fun s : MissionSummary => (s.missionId, s.missionName))
        [{ missionId := some "B", missionName := "B".data,
           videos := [{ videoId := some "v2", transcriptId := none,
                        title := some "v2.mp4".data, processed := false,
                        webUrl := none, missionId := some "B",
                        missionName := "B".data },
                      { videoId := some "v1", transcriptId := none,
                        title := some "v1.mp4".data, processed := false,
                        webUrl := none, missionId := some "B",
                        missionName := "B".data }],
           videoCount := 2, processedCount := 0 },
         { missionId := some "A", missionName := "A".data,
           videos := [{ videoId := some "v2", transcriptId := none,
                        title := some "v2.mp4".data, processed := false,
                        webUrl := none, missionId := some "A",
                        missionName := "A".data },
                      { videoId := some "v1", transcriptId := none,
                        title := some "v1.mp4".data, processed := false,
                        webUrl := none, missionId := some "A",
                        missionName := "A".data }],
           videoCount := 2, processedCount := 0 }])
      (List.map (fun m : MissionInput => (m.mid, m.mname))
        [{ mid := some "B", mname := "B".data,
           videoFolder := some (some
             [{ fid := some "v2", name := some "v2.mp4".data, webUrl := none },
              { fid := some "v1", name := some "v1.mp4".data,
                webUrl := none }]),
           transcriptFolder := none },
         { mid := some "A", mname := "A".data,
           videoFolder := some (some
             [{ fid := some "v2", name := some "v2.mp4".data, webUrl := none },
              { fid := some "v1", name := some "v1.mp4".data,
                webUrl := none }]),
           transcriptFolder := none }]) :=
  C9_ordering.1 "tok" (some [])
    [{ mid := some "B", mname := "B".data,
       videoFolder := some (some
         [{ fid := some "v2", name := some "v2.mp4".data, webUrl := none },
          { fid := some "v1", name := some "v1.mp4".data, webUrl := none }]),
       transcriptFolder := none },
     { mid := some "A", mname := "A".data,
       videoFolder := some (some
         [{ fid := some "v2", name := some "v2.mp4".data, webUrl := none },
          { fid := some "v1", name := some "v1.mp4".data, webUrl := none }]),
       transcriptFolder := none }]
    [{ missionId := some "B", missionName := "B".data,
       videos := [{ videoId := some "v2", transcriptId := none,
                    title := some "v2.mp4".data, processed := false,
                    webUrl := none, missionId := some "B",
                    missionName := "B".data },
                  { videoId := some "v1", transcriptId := none,
                    title := some "v1.mp4".data, processed := false,
                    webUrl := none, missionId := some "B",
                    missionName := "B".data }],
       videoCount := 2, processedCount := 0 },
     { missionId := some "A", missionName := "A".data,
       videos := [{ videoId := some "v2", transcriptId := none,
                    title := some "v2.mp4".data, processed := false,
                    webUrl := none, missionId := some "A",
                    missionName := "A".data },
                  { videoId := some "v1", transcriptId := none,
                    title := some "v1.mp4".data, processed := false,
                    webUrl := none, missionId := some "A",
                    missionName := "A".data }],
       videoCount := 2, processedCount := 0 }]
    (by decide)

/-! ## C6: timestamp stripping -/

theorem residue_eq_nil {t : List Char} (h : '\n' ∉ t) : residue t = [] := by
  unfold residue
  rw [List.count_eq_zero.mpr h]
  rfl

theorem matchesHere_pattern (d8 d6 r : List Char) (h8 : d8.length = 8)
    (hd8 : d8.all isDigit = true) (h6 : d6.length = 6)
    (hd6 : d6.all isDigit = true) (hr : '\n' ∉ r) :
    matchesHere ('-' :: (d8 ++ '_' :: (d6 ++ '-' :: r))) = true := by
  have ht8 : (d8 ++ '_' :: (d6 ++ '-' :: r)).take 8 = d8 := List.take_left' h8
  have hd8' : (d8 ++ '_' :: (d6 ++ '-' :: r)).drop 8 = '_' :: (d6 ++ '-' :: r) :=
    List.drop_left' h8
  have hd9 : (d8 ++ '_' :: (d6 ++ '-' :: r)).drop 9 = d6 ++ '-' :: r := by
    have h0 : List.drop 1 (List.drop 8 (d8 ++ '_' :: (d6 ++ '-' :: r))) =
        List.drop 9 (d8 ++ '_' :: (d6 ++ '-' :: r)) := List.drop_drop 1 8 _
    rw [← h0, hd8']
    rfl
  have hd15 : (d8 ++ '_' :: (d6 ++ '-' :: r)).drop 15 = '-' :: r := by
    have h0 : List.drop 6 (List.drop 9 (d8 ++ '_' :: (d6 ++ '-' :: r))) =
        List.drop 15 (d8 ++ '_' :: (d6 ++ '-' :: r)) := List.drop_drop 6 9 _
    rw [← h0, hd9]
    exact List.drop_left' h6
  have hd17 : ('-' :: (d8 ++ '_' :: (d6 ++ '-' :: r))).drop 17 = r := by
    show (d8 ++ '_' :: (d6 ++ '-' :: r)).drop 16 = r
    have h0 : List.drop 1 (List.drop 15 (d8 ++ '_' :: (d6 ++ '-' :: r))) =
        List.drop 16 (d8 ++ '_' :: (d6 ++ '-' :: r)) := List.drop_drop 1 15 _
    rw [← h0, hd15]
    rfl
  have ht6 : (d6 ++ '-' :: r).take 6 = d6 := List.take_left' h6
  unfold matchesHere
  rw [hd17]
  unfold tsHead
  simp only [ht8, hd8', hd9, hd15, ht6, h8, h6, List.head?_cons]
  simp only [hd8, hd6, beq_self_eq_true, Bool.and_self, Bool.true_and,
    Bool.and_true]
  unfold tailOk
  rw [List.count_eq_zero.mpr hr]
  rfl

theorem subTimestamp_append_match (u w : List Char)
    (hw : matchesHere w = true) (hnl : '\n' ∉ u ++ w) :
    ∃ n, subTimestamp (u ++ w) = u.take n := by
  induction u with
  | nil =>
      refine ⟨0, ?_⟩
      match w, hw with
      | c :: cs, hw =>
          rw [List.nil_append]
          unfold subTimestamp
          rw [if_pos hw]
          exact residue_eq_nil (fun hmem =>
            hnl (List.mem_append.mpr (Or.inr (List.mem_of_mem_drop hmem))))
  | cons a u ih =>
      rw [List.cons_append]
      unfold subTimestamp
      by_cases hm : matchesHere (a :: (u ++ w)) = true
      · refine ⟨0, ?_⟩
        rw [if_pos hm]
        exact residue_eq_nil (fun hmem =>
          hnl (by
            rw [← List.cons_append] at hmem
            exact List.mem_of_mem_drop hmem))
      · obtain ⟨n, hn⟩ := ih (fun hmem => hnl (List.mem_cons_of_mem a hmem))
        refine ⟨n + 1, ?_⟩
        rw [if_neg hm, hn]
        rfl

/-- C6: on the lowered transliterated stem, the substitution deletes from
a `-DDDDDDDD_DDDDDD-` occurrence (8 digits, underscore, 6 digits) to the
end of the stem, leaving only a front part of the text before the
occurrence; in particular
`normalize_filename("meeting-20240115_093000-raw.mp4")` equals
`normalize_filename("meeting.mp4")`. -/
theorem C6_timestamp_strip :
    (∀ u d8 d6 r : List Char, d8.length = 8 → d8.all isDigit = true →
        d6.length = 6 → d6.all isDigit = true → '\n' ∉ u → '\n' ∉ r →
        ∃ n, subTimestamp (u ++ '-' :: (d8 ++ '_' :: (d6 ++ '-' :: r))) =
          u.take n) ∧
    normalize_filename "meeting-20240115_093000-raw.mp4".data =
      normalize_filename "meeting.mp4".data := by
  constructor
  · intro u d8 d6 r h8 hd8 h6 hd6 hu hr
    refine subTimestamp_append_match u _
      (matchesHere_pattern d8 d6 r h8 hd8 h6 hd6 hr) ?_
    intro hmem
    rcases List.mem_append.mp hmem with h | h
    · exact hu h
    · rcases List.mem_cons.mp h with h | h
      · exact absurd h.symm (by decide)
      · rcases List.mem_append.mp h with h | h
        · have := List.all_eq_true.mp hd8 _ h
          revert this
          decide
        · rcases List.mem_cons.mp h with h | h
          · exact absurd h.symm (by decide)
          · rcases List.mem_append.mp h with h | h
            · have := List.all_eq_true.mp hd6 _ h
              revert this
              decide
            · rcases List.mem_cons.mp h with h | h
              · exact absurd h.symm (by decide)
              · exact hr h
  · decide

/-- C6 witness: the general deletion statement at the concrete stem
`meeting-20240115_093000-raw`, together with the example equality. -/
theorem C6_timestamp_strip_witness :
    (∃ n, subTimestamp ("meeting".data ++ '-' ::
        ("20240115".data ++ '_' :: ("093000".data ++ '-' :: "raw".data))) =
      "meeting".data.take n) ∧
    normalize_filename "meeting-20240115_093000-raw.mp4".data =
      normalize_filename "meeting.mp4".data :=
  ⟨C6_timestamp_strip.1 "meeting".data "20240115".data "093000".data
      "raw".data (by decide) (by decide) (by decide) (by decide) (by decide)
      (by decide),
   C6_timestamp_strip.2⟩

/-! ## C1: case and accent invariance, but hyphen is not underscore -/

/-- C1 counterexample: the spec's example fails — `-` is a kept character
of the slug class while `_` is the collapse separator, so
`"Café-Intro.mp4"` and `"cafe_intro.mp4"` normalize to the distinct keys
`cafe-intro` and `cafe_intro`. -/
theorem C1_counterexample :
    normalize_filename "Café-Intro.mp4".data ≠
      normalize_filename "cafe_intro.mp4".data ∧
    normalize_filename "Café-Intro.mp4".data = "cafe-intro".data ∧
    normalize_filename "cafe_intro.mp4".data = "cafe_intro".data := by
  refine ⟨by decide, by decide, by decide⟩

/-- Two characters differ only by letter case or accents: they have the
same lowered transliteration, and when they are not literally equal both
are letter-like (in particular neither is the extension dot `'.'` nor the
path separator `'/'`, which a case or accent change can never produce). -/
def sameLetter (c d : Char) : Prop :=
  charKey c = charKey d ∧
    (c = d ∨ (c ≠ '.' ∧ c ≠ '/' ∧ d ≠ '.' ∧ d ≠ '/'))

instance (c d : Char) : Decidable (sameLetter c d) := by
  unfold sameLetter
  infer_instance

theorem sameLetter_dot {c d : Char} (h : sameLetter c d) : c = '.' ↔ d = '.' := by
  rcases h.2 with rfl | ⟨h1, _, h3, _⟩
  · exact Iff.rfl
  · exact ⟨fun hc => absurd hc h1, fun hd => absurd hd h3⟩

theorem sameLetter_slash {c d : Char} (h : sameLetter c d) :
    c = '/' ↔ d = '/' := by
  rcases h.2 with rfl | ⟨_, h2, _, h4⟩
  · exact Iff.rfl
  · exact ⟨fun hc => absurd hc h2, fun hd => absurd hd h4⟩

theorem forall₂_mem_slash {l₁ l₂ : List Char}
    (h : List.Forall₂ sameLetter l₁ l₂) : '/' ∈ l₁ ↔ '/' ∈ l₂ := by
  induction h with
  | nil => exact Iff.rfl
  | cons hab _ ih =>
      rw [List.mem_cons, List.mem_cons, ih]
      constructor
      · rintro (h | h)
        · exact Or.inl ((sameLetter_slash hab).mp h.symm).symm
        · exact Or.inr h
      · rintro (h | h)
        · exact Or.inl ((sameLetter_slash hab).mpr h.symm).symm
        · exact Or.inr h

theorem forall₂_basename {l₁ l₂ : List Char}
    (h : List.Forall₂ sameLetter l₁ l₂) :
    List.Forall₂ sameLetter (basename l₁) (basename l₂) := by
  induction h with
  | nil => exact List.Forall₂.nil
  | cons hab htail ih =>
      rename_i a b t₁ t₂
      unfold basename
      by_cases hm : '/' ∈ t₁
      · rw [if_pos hm, if_pos ((forall₂_mem_slash htail).mp hm)]
        exact ih
      · have hm₂ : '/' ∉ t₂ := fun hx => hm ((forall₂_mem_slash htail).mpr hx)
        rw [if_neg hm, if_neg hm₂]
        by_cases ha : a = '/'
        · rw [if_pos ha, if_pos ((sameLetter_slash hab).mp ha)]
          exact htail
        · rw [if_neg ha, if_neg (fun hb => ha ((sameLetter_slash hab).mpr hb))]
          exact List.Forall₂.cons hab htail

theorem forall₂_rfind {l₁ l₂ : List Char} (c : Char)
    (hp : ∀ x y, sameLetter x y → (x = c ↔ y = c))
    (h : List.Forall₂ sameLetter l₁ l₂) :
    rfindIdx c l₁ = rfindIdx c l₂ := by
  induction h with
  | nil => rfl
  | cons hab htail ih =>
      rename_i a b t₁ t₂
      unfold rfindIdx
      rw [ih]
      cases rfindIdx c t₂ with
      | some i => rfl
      | none =>
          by_cases ha : a = c
          · rw [if_pos ha, if_pos ((hp a b hab).mp ha)]
          · rw [if_neg ha, if_neg (fun hb => ha ((hp a b hab).mpr hb))]

theorem forall₂_get?_dot {l₁ l₂ : List Char}
    (h : List.Forall₂ sameLetter l₁ l₂) (j : Nat) :
    (l₁.get? j == some '.') = (l₂.get? j == some '.') := by
  induction h generalizing j with
  | nil => rfl
  | cons hab htail ih =>
      rename_i a b t₁ t₂
      cases j with
      | zero =>
          simp only [List.get?_cons_zero]
          by_cases ha : a = '.'
          · rw [ha, ((sameLetter_dot hab).mp ha)]
          · have hb : b ≠ '.' := fun hx => ha ((sameLetter_dot hab).mpr hx)
            simp [ha, hb]
      | succ j => simpa only [List.get?_cons_succ] using ih j

theorem forall₂_length {l₁ l₂ : List Char}
    (h : List.Forall₂ sameLetter l₁ l₂) : l₁.length = l₂.length :=
  List.Forall₂.length_eq h

theorem forall₂_splitext {l₁ l₂ : List Char}
    (h : List.Forall₂ sameLetter l₁ l₂) :
    List.Forall₂ sameLetter (splitext l₁).1 (splitext l₂).1 := by
  unfold splitext
  have hdot : rfindIdx '.' l₁ = rfindIdx '.' l₂ :=
    forall₂_rfind '.' (fun x y hxy => sameLetter_dot hxy) h
  have hsl : rfindIdx '/' l₁ = rfindIdx '/' l₂ :=
    forall₂_rfind '/' (fun x y hxy => sameLetter_slash hxy) h
  rw [← hdot, ← hsl]
  cases hd : rfindIdx '.' l₁ with
  | none => exact h
  | some d =>
      simp only
      have hany : (fun j => !(l₁.get? j == some '.')) =
          (fun j => !(l₂.get? j == some '.')) :=
        funext (fun j => by rw [forall₂_get?_dot h j])
      rw [← hany]
      by_cases hs : (match rfindIdx '/' l₁ with
          | none => 0
          | some s => s + 1) ≤ d
      · rw [if_pos hs, if_pos hs]
        by_cases hcond : (List.range' (match rfindIdx '/' l₁ with
            | none => 0
            | some s => s + 1)
            (d - (match rfindIdx '/' l₁ with
            | none => 0
            | some s => s + 1))).any (fun j => !(l₁.get? j == some '.')) = true
        · rw [if_pos hcond, if_pos hcond]
          exact List.forall₂_take d h
        · rw [if_neg hcond, if_neg hcond]
          exact h
      · rw [if_neg hs, if_neg hs]
        exact h

theorem forall₂_charKey_map {l₁ l₂ : List Char}
    (h : List.Forall₂ sameLetter l₁ l₂) :
    (unidecodeList l₁).map pyLower = (unidecodeList l₂).map pyLower := by
  induction h with
  | nil => rfl
  | cons hab _ ih =>
      rename_i a b t₁ t₂
      have hstep : ∀ x : Char, ∀ t : List Char,
          (unidecodeList (x :: t)).map pyLower =
            charKey x ++ (unidecodeList t).map pyLower := by
        intro x t
        unfold unidecodeList charKey
        rw [List.map_cons, List.flatten_cons, List.map_append]
      rw [hstep, hstep, hab.1, ih]

/-- C1 amended: normalization is invariant under changing letter case or
accents — for any two inputs whose characters are pointwise `sameLetter`,
`normalize_filename` (without extension) agrees.  The spec's concrete
example is wrong, however, because `-` and `_` are not such a pair:
`normalize_filename "Café-Intro.mp4" = "cafe-intro"` while
`normalize_filename "cafe_intro.mp4" = "cafe_intro"`. -/
theorem C1_case_accent_invariance (s t : List Char)
    (h : List.Forall₂ sameLetter s t) :
    normalize_filename s = normalize_filename t := by
  have hb : List.Forall₂ sameLetter (basename s) (basename t) :=
    forall₂_basename h
  have hsp : List.Forall₂ sameLetter (splitext (basename s)).1
      (splitext (basename t)).1 := forall₂_splitext hb
  have hk : (unidecodeList (splitext (basename s)).1).map pyLower =
      (unidecodeList (splitext (basename t)).1).map pyLower :=
    forall₂_charKey_map hsp
  show stripUnderscores (collapseRuns (subTimestamp
      ((unidecodeList (splitext (basename s)).1).map pyLower))) =
    stripUnderscores (collapseRuns (subTimestamp
      ((unidecodeList (splitext (basename t)).1).map pyLower)))
  rw [hk]

/-- C1 witness: the invariance applied to `"Café-Intro.mp4"` and its
case/accent variant `"cafe-intro.MP4"`. -/
theorem C1_case_accent_invariance_witness :
    normalize_filename "Café-Intro.mp4".data =
      normalize_filename "cafe-intro.MP4".data := by
  have e1 : "Café-Intro.mp4".data =
      ['C', 'a', 'f', 'é', '-', 'I', 'n', 't', 'r', 'o', '.', 'm', 'p', '4'] :=
    rfl
  have e2 : "cafe-intro.MP4".data =
      ['c', 'a', 'f', 'e', '-', 'i', 'n', 't', 'r', 'o', '.', 'M', 'P', '4'] :=
    rfl
  refine C1_case_accent_invariance _ _ ?_
  rw [e1, e2]
  repeat first
    | exact List.Forall₂.nil
    | refine List.Forall₂.cons (by decide) ?_

/-! ## C10: round-trip between upload key and reconciliation key -/

/-- C10 counterexample: the round-trip fails in two ways.  (a) The
collapse step can manufacture a timestamp pattern (`"a-12345678
123456-b.mp4"` normalizes to `a-12345678_123456-b`, whose re-normalization
strips everything after `a`).  (b) A stem that normalizes to empty keeps
only the extension, which re-normalizes to the extension name
(`"___.vtt"`). -/
theorem C10_counterexample :
    (normalize_filename
        (uploadKey "videos".data "a-12345678 123456-b.mp4".data) ≠
      normalize_filename "a-12345678 123456-b.mp4".data ∧
    normalize_filename
        (uploadKey "videos".data "a-12345678 123456-b.mp4".data) = "a".data ∧
    normalize_filename "a-12345678 123456-b.mp4".data =
      "a-12345678_123456-b".data) ∧
    (normalize_filename (uploadKey "json".data "___.vtt".data) ≠
      normalize_filename "___.vtt".data ∧
    normalize_filename (uploadKey "json".data "___.vtt".data) = "vtt".data ∧
    normalize_filename "___.vtt".data = []) := by
  refine ⟨⟨by decide, by decide, by decide⟩, ⟨by decide, by decide, by decide⟩⟩

theorem normalize_false_eq (n : List Char) :
    normalize_filename n =
      stripUnderscores (collapseRuns (subTimestamp
        ((unidecodeList (splitext (basename n)).1).map pyLower))) := rfl

theorem normalize_true_eq (n : List Char) :
    normalize_filename n true =
      normalize_filename n ++ (splitext (basename n)).2 := rfl

theorem mem_collapseAux (b : Bool) (l : List Char) (c : Char)
    (h : c ∈ collapseAux b l) : isAllowed c = true ∨ c = '_' := by
  induction l generalizing b with
  | nil => simp [collapseAux] at h
  | cons a t ih =>
      unfold collapseAux at h
      by_cases ha : isAllowed a = true
      · rw [if_pos ha] at h
        rcases List.mem_cons.mp h with rfl | h
        · exact Or.inl ha
        · exact ih false h
      · rw [if_neg ha] at h
        cases b with
        | true => exact ih true (by simpa using h)
        | false =>
            simp only [Bool.false_eq_true, if_false] at h
            rcases List.mem_cons.mp h with rfl | h
            · exact Or.inr rfl
            · exact ih true h

theorem mem_stripUnderscores {c : Char} {l : List Char}
    (h : c ∈ stripUnderscores l) : c ∈ l := by
  unfold stripUnderscores at h
  rw [List.mem_reverse] at h
  have h2 := (List.dropWhile_suffix (fun x => x = '_')).subset h
  rw [List.mem_reverse] at h2
  exact (List.dropWhile_suffix (fun x => x = '_')).subset h2

theorem mem_normalize {c : Char} {n : List Char}
    (h : c ∈ normalize_filename n) : isAllowed c = true ∨ c = '_' := by
  rw [normalize_false_eq] at h
  exact mem_collapseAux false _ c (mem_stripUnderscores h)

theorem slug_lt128 {c : Char} (h : isAllowed c = true ∨ c = '_') :
    c.toNat < 128 := by
  rcases h with h | rfl
  · unfold isAllowed at h
    rcases Bool.or_eq_true_iff.mp h with h | h
    · rcases Bool.or_eq_true_iff.mp h with h | h
      · have h2 := (Bool.and_eq_true_iff.mp h).2
        have h3 : c ≤ 'z' := of_decide_eq_true h2
        have h4 : c.toNat ≤ 122 := UInt32.le_def.mp h3
        omega
      · have h2 := (Bool.and_eq_true_iff.mp h).2
        have h3 : c ≤ '9' := of_decide_eq_true h2
        have h4 : c.toNat ≤ 57 := UInt32.le_def.mp h3
        omega
    · have h3 : c = '-' := of_decide_eq_true h
      subst h3
      decide
  · decide

theorem unidecodeChar_ascii {c : Char} (h : c.toNat < 128) :
    unidecodeChar c = [c] := by
  unfold unidecodeChar
  rw [if_pos h]

theorem pyLower_slug {c : Char} (h : isAllowed c = true ∨ c = '_') :
    pyLower c = c := by
  unfold pyLower
  split
  all_goals first
    | rfl
    | (rcases h with h | h
       · exact absurd h (by decide)
       · exact absurd h (by decide))

theorem slug_map_id {k : List Char}
    (h : ∀ c ∈ k, isAllowed c = true ∨ c = '_') :
    (unidecodeList k).map pyLower = k := by
  induction k with
  | nil => rfl
  | cons a t ih =>
      have hstep : unidecodeList (a :: t) = unidecodeChar a ++ unidecodeList t := by
        unfold unidecodeList
        rw [List.map_cons, List.flatten_cons]
      have ha := h a (List.mem_cons_self a t)
      rw [hstep, unidecodeChar_ascii (slug_lt128 ha), List.map_append,
        List.map_cons, List.map_nil, pyLower_slug ha, List.singleton_append,
        ih (fun c hc => h c (List.mem_cons_of_mem a hc))]

theorem rfindIdx_eq_none {c : Char} {l : List Char} (h : c ∉ l) :
    rfindIdx c l = none := by
  induction l with
  | nil => rfl
  | cons a t ih =>
      unfold rfindIdx
      rw [ih (fun hm => h (List.mem_cons_of_mem a hm)),
        if_neg (fun ha : a = c => h (ha ▸ List.mem_cons_self a t))]

theorem rfindIdx_append (k t2 : List Char) (c : Char) (h : c ∉ t2) :
    rfindIdx c (k ++ c :: t2) = some k.length := by
  induction k with
  | nil =>
      unfold rfindIdx
      rw [List.nil_append]
      show (match rfindIdx c t2 with
        | some i => some (i + 1)
        | none => if c = c then some 0 else none) = some 0
      rw [rfindIdx_eq_none h, if_pos rfl]
  | cons a k ih =>
      rw [List.cons_append]
      unfold rfindIdx
      rw [ih]
      rfl

theorem rfindIdx_none_not_mem {c : Char} {l : List Char}
    (h : rfindIdx c l = none) : c ∉ l := by
  induction l with
  | nil => simp
  | cons a t ih =>
      unfold rfindIdx at h
      cases hr : rfindIdx c t with
      | some j => rw [hr] at h; exact absurd h (by simp)
      | none =>
          rw [hr] at h
          by_cases ha : a = c
          · rw [if_pos ha] at h; exact absurd h (by simp)
          · rw [if_neg ha] at h
            intro hm
            rcases List.mem_cons.mp hm with hc | hc
            · exact ha hc.symm
            · exact ih hr hc

theorem slash_not_mem_basename (l : List Char) : '/' ∉ basename l := by
  induction l with
  | nil => simp [basename]
  | cons a t ih =>
      unfold basename
      by_cases hm : '/' ∈ t
      · rw [if_pos hm]; exact ih
      · rw [if_neg hm]
        by_cases ha : a = '/'
        · rw [if_pos ha]; exact hm
        · rw [if_neg ha]
          intro hmem
          rcases List.mem_cons.mp hmem with h | h
          · exact ha h.symm
          · exact hm h

theorem basename_append {x : List Char} (p : List Char) (hx : '/' ∉ x) :
    basename (p ++ '/' :: x) = x := by
  induction p with
  | nil =>
      rw [List.nil_append]
      unfold basename
      rw [if_neg hx, if_pos rfl]
  | cons a p ih =>
      rw [List.cons_append]
      unfold basename
      rw [if_pos (List.mem_append.mpr (Or.inr (List.mem_cons_self '/' x)))]
      exact ih

theorem mem_splitext_ext {p : List Char} {c : Char}
    (h : c ∈ (splitext p).2) : c ∈ p := by
  unfold splitext at h
  cases hd : rfindIdx '.' p with
  | none => rw [hd] at h; simp at h
  | some d =>
      rw [hd] at h
      simp only at h
      by_cases hs : (match rfindIdx '/' p with
          | none => 0
          | some s => s + 1) ≤ d
      · rw [if_pos hs] at h
        by_cases hc : (List.range' (match rfindIdx '/' p with
            | none => 0
            | some s => s + 1)
            (d - (match rfindIdx '/' p with
            | none => 0
            | some s => s + 1))).any (fun j => !(p.get? j == some '.')) = true
        · rw [if_pos hc] at h
          exact List.mem_of_mem_drop h
        · rw [if_neg hc] at h; simp at h
      · rw [if_neg hs] at h; simp at h

theorem rfindIdx_spec {c : Char} {l : List Char} {i : Nat}
    (h : rfindIdx c l = some i) :
    i < l.length ∧ l.get? i = some c ∧ c ∉ l.drop (i + 1) := by
  induction l generalizing i with
  | nil => exact absurd h (by simp [rfindIdx])
  | cons a t ih =>
      unfold rfindIdx at h
      cases hr : rfindIdx c t with
      | some j =>
          rw [hr] at h
          obtain rfl : j + 1 = i := Option.some.inj h
          obtain ⟨h1, h2, h3⟩ := ih hr
          refine ⟨by simpa using Nat.succ_lt_succ h1, by simpa using h2, ?_⟩
          simpa using h3
      | none =>
          rw [hr] at h
          by_cases ha : a = c
          · rw [if_pos ha] at h
            obtain rfl : (0 : Nat) = i := Option.some.inj h
            refine ⟨by simp, by simp [ha], ?_⟩
            show c ∉ t
            exact rfindIdx_none_not_mem hr
          · rw [if_neg ha] at h
            exact absurd h (by simp)

theorem splitext_ext_shape (p : List Char) :
    (splitext p).2 = [] ∨
      ∃ t2, (splitext p).2 = '.' :: t2 ∧ '.' ∉ t2 := by
  unfold splitext
  cases hd : rfindIdx '.' p with
  | none => exact Or.inl rfl
  | some d =>
      obtain ⟨h1, h2, h3⟩ := rfindIdx_spec hd
      simp only
      by_cases hs : (match rfindIdx '/' p with
          | none => 0
          | some s => s + 1) ≤ d
      · rw [if_pos hs]
        by_cases hc : (List.range' (match rfindIdx '/' p with
            | none => 0
            | some s => s + 1)
            (d - (match rfindIdx '/' p with
            | none => 0
            | some s => s + 1))).any (fun j => !(p.get? j == some '.')) = true
        · rw [if_pos hc]
          refine Or.inr ⟨p.drop (d + 1), ?_, h3⟩
          show p.drop d = '.' :: p.drop (d + 1)
          have := List.drop_eq_getElem_cons h1
          rw [this]
          have hg : p[d] = '.' := by
            have := List.getElem?_eq_getElem h1
            rw [← List.get?_eq_getElem?] at this
            rw [h2] at this
            exact (Option.some.inj this).symm
          rw [hg]
        · rw [if_neg hc]; exact Or.inl rfl
      · rw [if_neg hs]; exact Or.inl rfl

theorem splitext_append_ext (k ext : List Char) (hkne : k ≠ [])
    (hdot : '.' ∉ k) (hslk : '/' ∉ k) (hsle : '/' ∉ ext)
    (hshape : ext = [] ∨ ∃ t2, ext = '.' :: t2 ∧ '.' ∉ t2) :
    splitext (k ++ ext) = (k, ext) := by
  rcases hshape with rfl | ⟨t2, rfl, hdott2⟩
  · rw [List.append_nil]
    unfold splitext
    rw [rfindIdx_eq_none hdot]
  · have hd : rfindIdx '.' (k ++ '.' :: t2) = some k.length :=
      rfindIdx_append k t2 '.' hdott2
    have hns : '/' ∉ k ++ '.' :: t2 := by
      intro hm
      rcases List.mem_append.mp hm with h | h
      · exact hslk h
      · exact hsle h
    have hs : rfindIdx '/' (k ++ '.' :: t2) = none := rfindIdx_eq_none hns
    obtain ⟨c0, k', rfl⟩ := List.exists_cons_of_ne_nil hkne
    have hc0 : c0 ≠ '.' := fun h => hdot (h ▸ List.mem_cons_self c0 k')
    unfold splitext
    rw [hd, hs]
    simp only
    rw [if_pos (Nat.zero_le _)]
    have hany : (List.range' 0 ((c0 :: k').length - 0)).any
        (fun j => !(((c0 :: k') ++ '.' :: t2).get? j == some '.')) = true := by
      refine List.any_eq_true.mpr ⟨0, ?_, ?_⟩
      · refine List.mem_range'_1.mpr ⟨Nat.le_refl 0, ?_⟩
        simp [List.length_cons]
      · rw [List.cons_append, List.get?_cons_zero]
        simp [hc0]
    rw [if_pos hany, List.take_left, List.drop_left]

theorem collapseAux_chain (l : List Char) :
    ((collapseAux false l).Chain' (fun a b => ¬(a = '_' ∧ b = '_'))) ∧
    ((collapseAux true l).Chain' (fun a b => ¬(a = '_' ∧ b = '_')) ∧
      (collapseAux true l).head? ≠ some '_') := by
  induction l with
  | nil => exact ⟨List.chain'_nil, List.chain'_nil, by simp [collapseAux]⟩
  | cons a t ih =>
      obtain ⟨ih1, ih2, ih3⟩ := ih
      by_cases ha : isAllowed a = true
      · have hne : a ≠ '_' := fun h => by rw [h] at ha; exact absurd ha (by decide)
        have hcons : (a :: collapseAux false t).Chain'
            (fun a b => ¬(a = '_' ∧ b = '_')) :=
          List.chain'_cons'.mpr ⟨fun y _ hab => hne hab.1, ih1⟩
        refine ⟨?_, ?_, ?_⟩
        · show (collapseAux false (a :: t)).Chain' _
          unfold collapseAux
          rw [if_pos ha]
          exact hcons
        · show (collapseAux true (a :: t)).Chain' _
          unfold collapseAux
          rw [if_pos ha]
          exact hcons
        · show (collapseAux true (a :: t)).head? ≠ some '_'
          unfold collapseAux
          rw [if_pos ha]
          simpa using hne
      · refine ⟨?_, ?_, ?_⟩
        · show (collapseAux false (a :: t)).Chain' _
          unfold collapseAux
          rw [if_neg ha]
          simp only [Bool.false_eq_true, if_false]
          refine List.chain'_cons'.mpr ⟨fun y hy hab => ?_, ih2⟩
          exact ih3 (by rw [hy, hab.2])
        · show (collapseAux true (a :: t)).Chain' _
          unfold collapseAux
          rw [if_neg ha]
          simpa using ih2
        · show (collapseAux true (a :: t)).head? ≠ some '_'
          unfold collapseAux
          rw [if_neg ha]
          simpa using ih3

theorem collapseAux_id (l : List Char)
    (hmem : ∀ c ∈ l, isAllowed c = true ∨ c = '_')
    (hch : l.Chain' (fun a b => ¬(a = '_' ∧ b = '_'))) :
    collapseAux false l = l ∧
      (l.head? ≠ some '_' → collapseAux true l = l) := by
  induction l with
  | nil => exact ⟨rfl, fun _ => rfl⟩
  | cons a t ih =>
      have hmt : ∀ c ∈ t, isAllowed c = true ∨ c = '_' :=
        fun c hc => hmem c (List.mem_cons_of_mem a hc)
      have hpair := List.chain'_cons'.mp hch
      obtain ⟨ih1, ih2⟩ := ih hmt hpair.2
      constructor
      · show collapseAux false (a :: t) = a :: t
        unfold collapseAux
        rcases hmem a (List.mem_cons_self a t) with ha | ha
        · rw [if_pos ha, ih1]
        · subst ha
          rw [if_neg (by decide)]
          simp only [Bool.false_eq_true, if_false]
          rw [ih2]
          intro hh
          cases ht : t.head? with
          | none => rw [ht] at hh; exact (Option.noConfusion hh)
          | some y =>
              rw [ht] at hh
              obtain rfl : y = '_' := (Option.some.inj hh)
              exact hpair.1 '_' ht ⟨rfl, rfl⟩
      · intro hne
        show collapseAux true (a :: t) = a :: t
        unfold collapseAux
        have ha : isAllowed a = true := by
          rcases hmem a (List.mem_cons_self a t) with ha | ha
          · exact ha
          · exact absurd (show (a :: t).head? = some '_' by rw [ha]; rfl) hne
        rw [if_pos ha, ih1]

theorem head?_dropWhile {p : Char → Bool} {l : List Char} {a : Char}
    (h : (l.dropWhile p).head? = some a) : p a = false := by
  induction l with
  | nil => simp [List.dropWhile] at h
  | cons x t ih =>
      rw [List.dropWhile_cons] at h
      by_cases hx : p x = true
      · rw [if_pos hx] at h
        exact ih h
      · rw [if_neg hx] at h
        obtain rfl : x = a := Option.some.inj h
        exact Bool.eq_false_iff.mpr hx

theorem getLast?_suffix {l₁ l₂ : List Char} (h : l₁.IsSuffix l₂)
    (hne : l₁ ≠ []) : l₁.getLast? = l₂.getLast? := by
  obtain ⟨t, rfl⟩ := h
  rw [List.getLast?_append]
  cases hl : l₁.getLast? with
  | none => exact absurd (List.getLast?_eq_none_iff.mp hl) hne
  | some x => rfl

theorem stripUnderscores_head (l : List Char) :
    (stripUnderscores l).head? ≠ some '_' := by
  unfold stripUnderscores
  intro h
  rw [List.head?_reverse] at h
  have hyne : (((l.dropWhile (fun c => c = '_')).reverse).dropWhile
      (fun c => c = '_')) ≠ [] := by
    intro hnil
    rw [hnil] at h
    exact Option.noConfusion h
  have h2 := getLast?_suffix
    (List.dropWhile_suffix (fun c => c = '_')
      (l := (l.dropWhile (fun c => c = '_')).reverse)) hyne
  rw [h2, List.getLast?_reverse] at h
  have := head?_dropWhile h
  simp at this

theorem stripUnderscores_getLast (l : List Char) :
    (stripUnderscores l).getLast? ≠ some '_' := by
  unfold stripUnderscores
  intro h
  rw [List.getLast?_reverse] at h
  have := head?_dropWhile h
  simp at this

theorem dropWhile_id_of_head {p : Char → Bool} {l : List Char}
    (h : ∀ a, l.head? = some a → p a = false) : l.dropWhile p = l := by
  cases l with
  | nil => rfl
  | cons x t =>
      rw [List.dropWhile_cons, if_neg]
      rw [h x rfl]
      simp

theorem stripUnderscores_id {l : List Char} (h1 : l.head? ≠ some '_')
    (h2 : l.getLast? ≠ some '_') : stripUnderscores l = l := by
  unfold stripUnderscores
  have e1 : l.dropWhile (fun c => c = '_') = l := by
    refine dropWhile_id_of_head (fun a ha => ?_)
    have : a ≠ '_' := fun hx => h1 (by rw [← hx]; exact ha)
    simp [this]
  rw [e1]
  have e2 : l.reverse.dropWhile (fun c => c = '_') = l.reverse := by
    refine dropWhile_id_of_head (fun a ha => ?_)
    rw [List.head?_reverse] at ha
    have : a ≠ '_' := fun hx => h2 (by rw [← hx]; exact ha)
    simp [this]
  rw [e2, List.reverse_reverse]

theorem chain'_stripUnderscores {l : List Char}
    (h : l.Chain' (fun a b => ¬(a = '_' ∧ b = '_'))) :
    (stripUnderscores l).Chain' (fun a b => ¬(a = '_' ∧ b = '_')) := by
  unfold stripUnderscores
  have h1 : ((l.dropWhile (fun c => c = '_'))).Chain'
      (fun a b => ¬(a = '_' ∧ b = '_')) :=
    h.suffix (List.dropWhile_suffix _)
  have h2 : ((l.dropWhile (fun c => c = '_')).reverse).Chain'
      (flip (fun a b => ¬(a = '_' ∧ b = '_'))) := by
    rw [List.chain'_reverse]
    exact h1
  have h3 : (((l.dropWhile (fun c => c = '_')).reverse).dropWhile
      (fun c => c = '_')).Chain' (flip (fun a b => ¬(a = '_' ∧ b = '_'))) :=
    h2.suffix (List.dropWhile_suffix _)
  rw [List.chain'_reverse]
  exact h3

/-- C10 amended: the round-trip holds exactly under the two side
conditions the counterexample forces — the video's normalized key must be
nonempty and must not itself contain a timestamp pattern.  Then the key
`prefix + "/" + normalize_filename(n, extension=True)` written by
`sendVideoToS3` re-normalizes (in `get_processed_s3_filenames`) to
`normalize_filename n`, so the uploaded video is recognized as
processed. -/
theorem C10_roundtrip (n pre : List Char)
    (hne : normalize_filename n ≠ [])
    (hts : subTimestamp (normalize_filename n) = normalize_filename n) :
    normalize_filename (uploadKey pre n) = normalize_filename n := by
  have hmemk : ∀ c ∈ normalize_filename n, isAllowed c = true ∨ c = '_' :=
    fun c hc => mem_normalize hc
  have hslk : '/' ∉ normalize_filename n := by
    intro hm
    rcases hmemk '/' hm with h | h
    · exact absurd h (by decide)
    · exact absurd h (by decide)
  have hdotk : '.' ∉ normalize_filename n := by
    intro hm
    rcases hmemk '.' hm with h | h
    · exact absurd h (by decide)
    · exact absurd h (by decide)
  have hsle : '/' ∉ (splitext (basename n)).2 := fun hm =>
    slash_not_mem_basename n (mem_splitext_ext hm)
  have hup : uploadKey pre n =
      pre ++ '/' :: (normalize_filename n ++ (splitext (basename n)).2) := by
    unfold uploadKey
    rw [normalize_true_eq]
  have hb : basename (uploadKey pre n) =
      normalize_filename n ++ (splitext (basename n)).2 := by
    rw [hup]
    refine basename_append pre ?_
    intro hm
    rcases List.mem_append.mp hm with h | h
    · exact hslk h
    · exact hsle h
  have hsp : splitext (normalize_filename n ++ (splitext (basename n)).2) =
      (normalize_filename n, (splitext (basename n)).2) :=
    splitext_append_ext _ _ hne hdotk hslk hsle (splitext_ext_shape _)
  have hid : (unidecodeList (normalize_filename n)).map pyLower =
      normalize_filename n := slug_map_id hmemk
  have hch : (normalize_filename n).Chain' (fun a b => ¬(a = '_' ∧ b = '_')) := by
    rw [normalize_false_eq]
    exact chain'_stripUnderscores (collapseAux_chain _).1
  have hcoll : collapseRuns (normalize_filename n) = normalize_filename n :=
    (collapseAux_id _ hmemk hch).1
  have hstrip : stripUnderscores (normalize_filename n) =
      normalize_filename n := by
    refine stripUnderscores_id ?_ ?_
    · rw [normalize_false_eq]
      exact stripUnderscores_head _
    · rw [normalize_false_eq]
      exact stripUnderscores_getLast _
  have hsp1 : (splitext (basename (uploadKey pre n))).1 =
      normalize_filename n := by
    rw [hb, hsp]
  rw [normalize_false_eq (uploadKey pre n), hsp1, hid, hts, hcoll, hstrip]

/-- C10 witness: the amended round-trip at `n = "Intro Vid.mp4"`,
`prefix = "json"`, whose key `intro_vid` is nonempty and
timestamp-free. -/
theorem C10_roundtrip_witness :
    normalize_filename (uploadKey "json".data "Intro Vid.mp4".data) =
      normalize_filename "Intro Vid.mp4".data :=
  C10_roundtrip "Intro Vid.mp4".data "json".data (by decide) (by decide)

end LocalStackLambda
